import Mathlib

/-!
Verification development for the vizia-chess interaction state machine
(src/lib.rs).  The controller (`Chess`, `Chess.event`, `Chess.update_board`,
`get_paths_from_pos`) is translated directly from the source.  The rules
engine (the `chess` crate: `Board`, `Square`, `BitBoard`, `ChessMove`,
legality, move application, check detection, FEN display) is the external
collaborator consumed by the source; it is modelled here by a concrete
chess engine exposing exactly the API surface the source calls, with
standard chess semantics.
-/

/-- Piece kinds of the rules engine. -/
inductive PieceKind where
  | pawn | knight | bishop | rook | queen | king
deriving DecidableEq

/-- The two players.  White is the first player (moves first). -/
inductive Color where
  | white | black
deriving DecidableEq

/-- The opposite color. -/
def Color.other : Color → Color
  | .white => .black
  | .black => .white

/-- A colored piece. -/
structure CPiece where
  color : Color
  kind : PieceKind
deriving DecidableEq

/-- Engine board: 64 squares (index 0 = a1 … 63 = h8, rank-major), the side
to move, castling rights and the en-passant target square.  Mirrors the
state carried by `chess::Board`. -/
structure Board where
  pieces : List (Option CPiece)
  side_to_move : Color
  castleWK : Bool
  castleWQ : Bool
  castleBK : Bool
  castleBQ : Bool
  epSquare : Option Nat
deriving DecidableEq

/-- Piece standing on square `n` (crate: `Board::piece_on`/`color_on`). -/
def Board.piece_on (b : Board) (n : Nat) : Option CPiece :=
  b.pieces.getD n none

/-- File (column) of a square, as an integer. -/
def fileOf (s : Nat) : Int := (s % 8 : Nat)

/-- Rank (row) of a square, as an integer. -/
def rankOf (s : Nat) : Int := (s / 8 : Nat)

/-- Square with the given file and rank. -/
def mkSq (f r : Int) : Nat := (8 * r + f).toNat

/-- Direction a pawn of color `c` advances in (+1 for white). -/
def pawnDir : Color → Int
  | .white => 1
  | .black => -1

/-- The squares strictly between `s` and `t` along the straight or diagonal
line from `s` to `t` (meaningful when the two squares are aligned). -/
def between (s t : Nat) : List Nat :=
  let df := fileOf t - fileOf s
  let dr := rankOf t - rankOf s
  let n := max df.natAbs dr.natAbs
  (List.range (n - 1)).map (fun k =>
    mkSq (fileOf s + ((k : Int) + 1) * df.sign) (rankOf s + ((k : Int) + 1) * dr.sign))

/-- All squares strictly between `s` and `t` are empty. -/
def clearBetween (b : Board) (s t : Nat) : Bool :=
  (between s t).all (fun q => (b.piece_on q).isNone)

/-- Whether a piece `p` standing on `s` attacks square `t` on board `b`
(standard chess attack geometry; sliding pieces need the path clear). -/
def attacksSq (b : Board) (s t : Nat) (p : CPiece) : Bool :=
  let df := fileOf t - fileOf s
  let dr := rankOf t - rankOf s
  if s = t then false else
  match p.kind with
  | .pawn => decide (dr = pawnDir p.color) && decide (df.natAbs = 1)
  | .knight =>
      (decide (df.natAbs = 1) && decide (dr.natAbs = 2))
      || (decide (df.natAbs = 2) && decide (dr.natAbs = 1))
  | .bishop => decide (df.natAbs = dr.natAbs) && clearBetween b s t
  | .rook => (decide (df = 0) || decide (dr = 0)) && clearBetween b s t
  | .queen =>
      (decide (df.natAbs = dr.natAbs) || decide (df = 0) || decide (dr = 0))
      && clearBetween b s t
  | .king => decide (df.natAbs ≤ 1) && decide (dr.natAbs ≤ 1)

/-- Whether the piece on `s` is a piece of color `c` that attacks `t`. -/
def attackerAt (b : Board) (c : Color) (t s : Nat) : Bool :=
  match b.piece_on s with
  | some p => decide (p.color = c) && attacksSq b s t p
  | none => false

/-- Square `t` is attacked by some piece of color `c`. -/
def attackedBy (b : Board) (t : Nat) (c : Color) : Bool :=
  (List.range 64).any (attackerAt b c t)

/-- Square of the king of color `c` (crate: `Board::king_square`). -/
def Board.king_square (b : Board) (c : Color) : Nat :=
  ((List.range 64).find? (fun s => decide (b.piece_on s = some ⟨c, .king⟩))).getD 64

/-- The king of color `c` is attacked by the other side. -/
def inCheckOf (b : Board) (c : Color) : Bool :=
  attackedBy b (b.king_square c) c.other

/-- The side to move is currently in check. -/
def sideInCheck (b : Board) : Bool :=
  inCheckOf b b.side_to_move

/-- Squares of the opponent pieces giving check to the side to move
(crate: `Board::checkers`, as the list of set squares of the bitboard,
which is what iterating the `BitBoard` yields). -/
def Board.checkers (b : Board) : List Nat :=
  (List.range 64).filter (attackerAt b b.side_to_move.other (b.king_square b.side_to_move))

/-- A move as built by `ChessMove::new(from, to, promotion)`. -/
structure ChessMove where
  src : Nat
  dst : Nat
  promotion : Option PieceKind
deriving DecidableEq

/-- Last rank for pawns of color `c`. -/
def lastRank : Color → Int
  | .white => 7
  | .black => 0

/-- Starting rank of pawns of color `c`. -/
def startPawnRank : Color → Int
  | .white => 1
  | .black => 6

/-- The destination square holds no piece of color `c`. -/
def targetNotOwn (b : Board) (t : Nat) (c : Color) : Bool :=
  match b.piece_on t with
  | some q => decide (q.color ≠ c)
  | none => true

/-- Promotion discipline of the engine: a pawn reaching the last rank must
carry a promotion piece (not a pawn or king); every other move carries
none.  In particular `ChessMove::new(from, to, None)` onto the last rank
is not a generated (legal) move. -/
def promoOk (p : CPiece) (m : ChessMove) : Bool :=
  if p.kind = .pawn ∧ rankOf m.dst = lastRank p.color then
    match m.promotion with
    | some k => decide (k ≠ .pawn) && decide (k ≠ .king)
    | none => false
  else decide (m.promotion = none)

/-- Pawn move geometry: single push, double push from the start rank, and
diagonal capture (including en passant onto the stored target square). -/
def pawnMove (b : Board) (m : ChessMove) (c : Color) : Bool :=
  let df := fileOf m.dst - fileOf m.src
  let dr := rankOf m.dst - rankOf m.src
  (decide (df = 0) && decide (dr = pawnDir c) && (b.piece_on m.dst).isNone)
  || (decide (df = 0) && decide (dr = 2 * pawnDir c)
        && decide (rankOf m.src = startPawnRank c)
        && (b.piece_on (mkSq (fileOf m.src) (rankOf m.src + pawnDir c))).isNone
        && (b.piece_on m.dst).isNone)
  || (decide (df.natAbs = 1) && decide (dr = pawnDir c)
        && (match b.piece_on m.dst with
            | some q => decide (q.color = c.other)
            | none => decide (b.epSquare = some m.dst)))

/-- Castling attempt: king from its home square two files sideways, with
the right intact, the rook in its corner, the path empty, and neither the
king's square nor any square it crosses attacked by the opponent. -/
def castleMove (b : Board) (m : ChessMove) : Bool :=
  let c := b.side_to_move
  let home : Int := if c = .white then 0 else 7
  let e := mkSq 4 home
  decide (m.src = e) &&
  ((decide (m.dst = mkSq 6 home)
      && (if c = .white then b.castleWK else b.castleBK)
      && decide (b.piece_on (mkSq 7 home) = some ⟨c, .rook⟩)
      && (b.piece_on (mkSq 5 home)).isNone && (b.piece_on (mkSq 6 home)).isNone
      && !(attackedBy b e c.other)
      && !(attackedBy b (mkSq 5 home) c.other)
      && !(attackedBy b (mkSq 6 home) c.other))
   ||
   (decide (m.dst = mkSq 2 home)
      && (if c = .white then b.castleWQ else b.castleBQ)
      && decide (b.piece_on (mkSq 0 home) = some ⟨c, .rook⟩)
      && (b.piece_on (mkSq 1 home)).isNone && (b.piece_on (mkSq 2 home)).isNone
      && (b.piece_on (mkSq 3 home)).isNone
      && !(attackedBy b e c.other)
      && !(attackedBy b (mkSq 3 home) c.other)
      && !(attackedBy b (mkSq 2 home) c.other)))

/-- Pseudo-legal move: right color piece on the source square, correct
geometry for its kind, destination not occupied by an own piece, promotion
discipline respected. -/
def pseudoLegal (b : Board) (m : ChessMove) : Bool :=
  decide (m.src < 64) && decide (m.dst < 64) && decide (m.src ≠ m.dst) &&
  match b.piece_on m.src with
  | none => false
  | some p =>
    decide (p.color = b.side_to_move) && promoOk p m &&
    (match p.kind with
     | .pawn => pawnMove b m p.color
     | .king => (attacksSq b m.src m.dst p && targetNotOwn b m.dst p.color)
                  || castleMove b m
     | _ => attacksSq b m.src m.dst p && targetNotOwn b m.dst p.color)

/-- Write `v` to square `n`. -/
def setSq (l : List (Option CPiece)) (n : Nat) (v : Option CPiece) :
    List (Option CPiece) :=
  l.set n v

/-- Apply a move, producing the new board (crate: `Board::make_move_new`).
Handles capture, en-passant capture, promotion, castling rook relocation,
castling-right updates, en-passant target bookkeeping and flipping the
side to move. -/
def Board.make_move_new (b : Board) (m : ChessMove) : Board :=
  match b.piece_on m.src with
  | none => b
  | some p =>
    let c := p.color
    let moved : CPiece :=
      match m.promotion with
      | some k => ⟨c, k⟩
      | none => p
    let ps := b.pieces
    let ps :=
      if p.kind = .pawn ∧ b.epSquare = some m.dst ∧ (b.piece_on m.dst).isNone
          ∧ fileOf m.dst ≠ fileOf m.src then
        setSq ps (mkSq (fileOf m.dst) (rankOf m.src)) none
      else ps
    let ps := setSq ps m.src none
    let ps := setSq ps m.dst (some moved)
    let home : Int := if c = .white then 0 else 7
    let ps :=
      if p.kind = .king ∧ (fileOf m.dst - fileOf m.src).natAbs = 2 then
        if fileOf m.dst = 6 then
          setSq (setSq ps (mkSq 7 home) none) (mkSq 5 home) (some ⟨c, .rook⟩)
        else
          setSq (setSq ps (mkSq 0 home) none) (mkSq 3 home) (some ⟨c, .rook⟩)
      else ps
    let ep :=
      if p.kind = .pawn ∧ (rankOf m.dst - rankOf m.src).natAbs = 2 then
        some (mkSq (fileOf m.src) (rankOf m.src + pawnDir c))
      else none
    { pieces := ps
      side_to_move := b.side_to_move.other
      castleWK := b.castleWK && decide (m.src ≠ 4) && decide (m.src ≠ 7) && decide (m.dst ≠ 7)
      castleWQ := b.castleWQ && decide (m.src ≠ 4) && decide (m.src ≠ 0) && decide (m.dst ≠ 0)
      castleBK := b.castleBK && decide (m.src ≠ 60) && decide (m.src ≠ 63) && decide (m.dst ≠ 63)
      castleBQ := b.castleBQ && decide (m.src ≠ 60) && decide (m.src ≠ 56) && decide (m.dst ≠ 56)
      epSquare := ep }

/-- Full legality (crate: `Board::legal`, membership in the generated
legal-move list): pseudo-legal and the mover's own king is not left in
check. -/
def Board.legal (b : Board) (m : ChessMove) : Bool :=
  pseudoLegal b m && !(inCheckOf (b.make_move_new m) b.side_to_move)

/-- Back rank of color `c`: R N B Q K B N R. -/
def backRank (c : Color) : List (Option CPiece) :=
  [PieceKind.rook, .knight, .bishop, .queen, .king, .bishop, .knight, .rook].map
    (fun k => some ⟨c, k⟩)

/-- A rank of eight pawns of color `c`. -/
def pawnRank (c : Color) : List (Option CPiece) :=
  List.replicate 8 (some ⟨c, .pawn⟩)

/-- An empty rank. -/
def emptyRank : List (Option CPiece) :=
  List.replicate 8 (none : Option CPiece)

/-- The standard initial position (crate: `Board::default`). -/
def Board.default : Board where
  pieces :=
    backRank .white ++ pawnRank .white ++ emptyRank ++ emptyRank
      ++ emptyRank ++ emptyRank ++ pawnRank .black ++ backRank .black
  side_to_move := .white
  castleWK := true
  castleWQ := true
  castleBK := true
  castleBQ := true
  epSquare := none

/-- Game status as reported by the crate (`Board::status`): if any legal
move exists the game is ongoing, otherwise checkmate when in check and
stalemate when not. -/
inductive BoardStatus where
  | ongoing | stalemate | checkmate
deriving DecidableEq

/-- The possible promotion fields of a move. -/
def promoChoices : List (Option PieceKind) :=
  [none, some .queen, some .rook, some .bishop, some .knight]

/-- Some legal move exists for the side to move (crate: the legal move
generator produces at least one move): search every source square,
destination square and promotion choice. -/
def existsLegal (b : Board) : Bool :=
  (List.range 64).any (fun s =>
    (List.range 64).any (fun t =>
      promoChoices.any (fun pr => b.legal ⟨s, t, pr⟩)))

/-- Crate `Board::status`. -/
def Board.status (b : Board) : BoardStatus :=
  if existsLegal b then .ongoing
  else if sideInCheck b then .checkmate
  else .stalemate

/-- FEN character of a piece (uppercase white, lowercase black), as produced
by the crate's `Display for Board`. -/
def pieceChar (p : CPiece) : Char :=
  match p.color, p.kind with
  | .white, .pawn => 'P'
  | .white, .knight => 'N'
  | .white, .bishop => 'B'
  | .white, .rook => 'R'
  | .white, .queen => 'Q'
  | .white, .king => 'K'
  | .black, .pawn => 'p'
  | .black, .knight => 'n'
  | .black, .bishop => 'b'
  | .black, .rook => 'r'
  | .black, .queen => 'q'
  | .black, .king => 'k'

/-- Character for the digit `n` (used for runs of 1–8 empty squares). -/
def digitChar (n : Nat) : Char := Char.ofNat ('0'.toNat + n)

/-- Run-length encode one rank of cells into FEN characters, carrying the
count of empty squares seen so far (exactly the loop of the crate's
`Display for Board`: empties are counted and flushed as a digit before a
piece character or at the end of the rank). -/
def encodeCells : List (Option CPiece) → Nat → List Char
  | [], 0 => []
  | [], n + 1 => [digitChar (n + 1)]
  | none :: rest, n => encodeCells rest (n + 1)
  | some p :: rest, 0 => pieceChar p :: encodeCells rest 0
  | some p :: rest, n + 1 => digitChar (n + 1) :: pieceChar p :: encodeCells rest 0

/-- The eight cells of rank `r` (files a to h). -/
def rankCells (b : Board) (r : Nat) : List (Option CPiece) :=
  (List.range 8).map (fun f => b.piece_on (8 * r + f))

/-- The encoded ranks, top rank (rank 8) first, as FEN prints them. -/
def fenRanks (b : Board) : List (List Char) :=
  (List.range 8).reverse.map (fun r => encodeCells (rankCells b r) 0)

/-- Join rank encodings with the FEN rank separator. -/
def joinSlash : List (List Char) → List Char
  | [] => []
  | [x] => x
  | x :: y :: rest => x ++ '/' :: joinSlash (y :: rest)

/-- The piece-placement field of the board's FEN string.  The source takes
`board.to_string().trim().split_whitespace().next()`: the crate displays
the full FEN, whose first whitespace-separated token is exactly this
placement field (it is never empty, so the source's `expect` on `next()`
cannot fire). -/
def fenPlacement (b : Board) : List Char :=
  joinSlash (fenRanks b)

/-- FEN digits recognised by the source's `"12345678".contains(c)` test. -/
def isFenDigit (c : Char) : Bool :=
  ['1', '2', '3', '4', '5', '6', '7', '8'].contains c

/-- Numeric value of a digit character (source: `c.to_digit(10)`, which
cannot fail after the digit test). -/
def digitVal (c : Char) : Nat := c.toNat - '0'.toNat

/-- Expansion step of the source's `flat_map`: a digit becomes that many
empty sprite keys, any other character becomes itself as a key. -/
def expandChar (c : Char) : List String :=
  if isFenDigit c then List.replicate (digitVal c) "" else [String.singleton c]

/-- Translation of `get_paths_from_pos` (src/lib.rs:194-213): take the FEN
placement, drop the rank separators, and expand each character into sprite
keys.  The source finishes with `try_into` into `[String; 64]`, panicking
unless the result has length 64; the length theorem below shows that
branch is never hit. -/
def get_paths_from_pos (b : Board) : List String :=
  ((fenPlacement b).filter (fun c => c != '/')).flatMap expandChar

/-- Number of pieces on the board. -/
def pieceCount (b : Board) : Nat :=
  ((List.range 64).filter (fun s => (b.piece_on s).isSome)).length

/-- Crate `Square::new` (the `unsafe` constructor): stores the raw byte with
no range validation and no masking. -/
def Square.new (sq : Nat) : Nat := sq

/-- The Rust `pos as u8` cast: wraps modulo 256. -/
def u8cast (p : Int) : Nat := (p % 256).toNat

/-- Crate `BitBoard::from_square`: `1u64 << sq`.  For `sq < 64` this is the
single-bit board `2 ^ sq`; for an invalid square (64–255) the shift
overflows: release builds mask the shift amount (x86 semantics), which the
`% 64` models, and debug builds abort inside the engine. -/
def BitBoard.from_square (sq : Nat) : Nat := 2 ^ (sq % 64)

/-- Crate `BitBoard::to_square`: index of the least set bit. -/
def BitBoard.to_square (bb : Nat) : Nat :=
  ((List.range 64).find? (fun i => bb.testBit i)).getD 64

/-- Crate `Board::color_combined`: bitboard of all squares holding a piece
of color `c`. -/
def Board.color_combined (b : Board) (c : Color) : Nat :=
  ((List.range 64).filter (fun s =>
      match b.piece_on s with
      | some p => decide (p.color = c)
      | none => false)).foldr (fun s acc => 2 ^ s ||| acc) 0

/-- The bitboard the click handler builds from a (decoded) click position:
`BitBoard::from_square(unsafe { Square::new(pos as u8) })`
(src/lib.rs:30). -/
def posBoard (pos : Int) : Nat :=
  BitBoard.from_square (Square.new (u8cast pos))

/-- The handler's own-piece test (src/lib.rs:35-36 and 50):
`pos_board == self.board.color_combined(self.board.side_to_move()) & pos_board`. -/
def own_test (b : Board) (pos : Int) : Bool :=
  posBoard pos == b.color_combined b.side_to_move &&& posBoard pos

/-- The move the handler builds on a move attempt (src/lib.rs:40-42):
`ChessMove::new(Square::new(selected_pos as u8), pos_board.to_square(), None)`. -/
def clickMove (selPos pos : Int) : ChessMove :=
  ⟨Square.new (u8cast selPos), BitBoard.to_square (posBoard pos), none⟩

/-- The events accepted by the view (src/lib.rs:6-10). -/
inductive ChessEvent where
  | TileClicked (pos : Int)
  | ToggleFlipping
  | Reset
deriving DecidableEq

/-- The controller state (src/lib.rs:12-19).  `images` is the projected
sprite-key array (a 64-element array in the source). -/
structure Chess where
  board : Board
  images : List String
  selected : Option (Int × Bool)
  on_check : Option (Int × Bool)
  should_flip : Bool
deriving DecidableEq

/-- Click decoding (src/lib.rs:25-29): with flipping enabled and the second
player to move, the logical position is `63 - raw`. -/
def decode (s : Chess) (raw : Int) : Int :=
  if s.should_flip && decide (s.board.side_to_move = Color.black) then 63 - raw
  else raw

/-- Translation of `Chess::update_board` (src/lib.rs:177-191): recompute
the sprite array (reversed when flipped for the second player) and the
check indicator (`Some((king_square, flip snapshot))` exactly when the
checkers bitboard is nonempty). -/
def update_board (s : Chess) : Chess :=
  let images := get_paths_from_pos s.board
  let images :=
    if s.should_flip && decide (s.board.side_to_move = Color.black) then images.reverse
    else images
  let on_check :=
    if s.board.checkers ≠ [] then
      some ((s.board.king_square s.board.side_to_move : Int),
            s.should_flip && decide (s.board.side_to_move = Color.black))
    else none
  { s with images := images, on_check := on_check }

/-- Translation of `Chess::event` (src/lib.rs:22-72). -/
def event (s : Chess) (ev : ChessEvent) : Chess :=
  match ev with
  | .TileClicked rawPos =>
    let pos := decode s rawPos
    match s.selected with
    | some (selected_pos, flipped) =>
      let flipped := s.should_flip && flipped
      if pos = selected_pos then
        { s with selected := none }
      else if own_test s.board pos then
        { s with selected := some (pos, flipped) }
      else
        let new_move := clickMove selected_pos pos
        if s.board.legal new_move then
          { update_board { s with board := s.board.make_move_new new_move } with
              selected := none }
        else s
    | none =>
      if own_test s.board pos then
        let snap := s.should_flip && decide (s.board.side_to_move = Color.black)
        { s with selected := some (pos, snap) }
      else s
  | .ToggleFlipping =>
      update_board { s with should_flip := !s.should_flip }
  | .Reset =>
      { update_board { s with board := Board.default } with selected := none }

/-- Translation of `Chess::new` (src/lib.rs:76-83): initial position,
projected images, no selection, no check indicator, flipping enabled. -/
def Chess.new : Chess where
  board := Board.default
  images := get_paths_from_pos Board.default
  selected := none
  on_check := none
  should_flip := true

lemma u8cast_small (p : Int) (h0 : 0 ≤ p) (h1 : p < 64) : u8cast p = p.toNat := by
  unfold u8cast
  omega

lemma posBoard_small (p : Int) (h0 : 0 ≤ p) (h1 : p < 64) :
    posBoard p = 2 ^ p.toNat := by
  unfold posBoard BitBoard.from_square Square.new
  rw [u8cast_small p h0 h1]
  congr 1
  omega

lemma to_square_pow : ∀ k, k < 64 → BitBoard.to_square (2 ^ k) = k := by decide

lemma decode_bounds (s : Chess) (raw : Int) (h2 : 0 ≤ raw) (h3 : raw < 64) :
    0 ≤ decode s raw ∧ decode s raw < 64 := by
  unfold decode
  split <;> omega

lemma testBit_orFold (l : List Nat) (i : Nat) :
    Nat.testBit (l.foldr (fun s acc => 2 ^ s ||| acc) 0) i = l.contains i := by
  induction l with
  | nil => simp
  | cons a rest ih =>
      simp only [List.foldr_cons, Nat.testBit_or, ih, List.contains_cons]
      by_cases h : a = i
      · subst h
        simp [Nat.testBit_two_pow_self]
      · simp [Nat.testBit_two_pow_of_ne h, h, Ne.symm h]

lemma testBit_color_combined (b : Board) (c : Color) (i : Nat) (hi : i < 64) :
    Nat.testBit (b.color_combined c) i =
      (match b.piece_on i with
       | some p => decide (p.color = c)
       | none => false) := by
  unfold Board.color_combined
  rw [testBit_orFold]
  by_cases hp : (match b.piece_on i with
      | some p => decide (p.color = c)
      | none => false) = true
  · rw [hp]
    have hmem : i ∈ (List.range 64).filter (fun s =>
        match b.piece_on s with
        | some p => decide (p.color = c)
        | none => false) := by
      rw [List.mem_filter]
      exact ⟨List.mem_range.mpr hi, hp⟩
    simpa using hmem
  · rw [Bool.eq_false_iff.mpr hp]
    have hmem : i ∉ (List.range 64).filter (fun s =>
        match b.piece_on s with
        | some p => decide (p.color = c)
        | none => false) := by
      rw [List.mem_filter]
      intro hmem
      exact hp hmem.2
    simpa using hmem

lemma pow_eq_land_iff (C k : Nat) :
    2 ^ k = C &&& 2 ^ k ↔ Nat.testBit C k = true := by
  constructor
  · intro h
    have h2 := congrArg (fun n => Nat.testBit n k) h
    simpa [Nat.testBit_land, Nat.testBit_two_pow_self] using h2.symm
  · intro h
    apply Nat.eq_of_testBit_eq
    intro i
    show Nat.testBit (2 ^ k) i = Nat.testBit (C &&& 2 ^ k) i
    rw [Nat.testBit_land]
    by_cases hik : k = i
    · subst hik
      simp [Nat.testBit_two_pow_self, h]
    · simp [Nat.testBit_two_pow_of_ne hik]

/-- The handler's bitboard own-piece test agrees, for in-range positions,
with the square holding a piece of the side to move. -/
lemma own_test_iff (b : Board) (p : Int) (h0 : 0 ≤ p) (h1 : p < 64) :
    own_test b p = true ↔
      ∃ q, b.piece_on p.toNat = some q ∧ q.color = b.side_to_move := by
  unfold own_test
  rw [posBoard_small p h0 h1, beq_iff_eq, pow_eq_land_iff,
    testBit_color_combined b b.side_to_move p.toNat (by omega)]
  cases hq : b.piece_on p.toNat with
  | none => simp
  | some q =>
      simp only [decide_eq_true_eq]
      constructor
      · intro h
        exact ⟨q, rfl, h⟩
      · rintro ⟨r, hr, hc⟩
        cases hr
        exact hc

/-- Shape of the click handler in the move-attempt branch: a selection is
active, the click is on a different square, and the own-piece test fails;
the handler then applies the move when it is legal and otherwise leaves
the state untouched. -/
lemma event_move_branch (s : Chess) (selPos : Int) (fl : Bool) (raw : Int)
    (hs : s.selected = some (selPos, fl))
    (hne : decode s raw ≠ selPos)
    (hown : own_test s.board (decode s raw) = false) :
    event s (.TileClicked raw) =
      (if s.board.legal (clickMove selPos (decode s raw)) then
        { update_board
            { s with
                board := s.board.make_move_new (clickMove selPos (decode s raw)) } with
            selected := none }
      else s) := by
  unfold event
  rw [hs]
  simp [hne, hown]

/-- The code's move value equals the plain (from, to) move for in-range
positions. -/
lemma clickMove_eq (selPos pos : Int) (g0 : 0 ≤ selPos) (g1 : selPos < 64)
    (g2 : 0 ≤ pos) (g3 : pos < 64) :
    clickMove selPos pos = ⟨selPos.toNat, pos.toNat, none⟩ := by
  unfold clickMove Square.new
  rw [u8cast_small selPos g0 g1, posBoard_small pos g2 g3,
    to_square_pow pos.toNat (by omega)]

lemma checkers_ne_nil_iff (b : Board) : b.checkers ≠ [] ↔ sideInCheck b = true := by
  unfold Board.checkers sideInCheck inCheckOf attackedBy
  rw [List.any_eq_true]
  rw [Ne, List.filter_eq_nil_iff]
  push_neg
  simp only [Bool.not_eq_false]

/-- The check-indicator invariant of a state: the indicator is present
exactly when the side to move is in check, and then carries that side's
king square. -/
def checkP (r : Chess) : Prop :=
  (r.on_check.isSome = true ↔ sideInCheck r.board = true) ∧
  ∀ k f, r.on_check = some (k, f) →
    k = (r.board.king_square r.board.side_to_move : Int)

/-- Shape of the click handler when a selection is active and the click is
on a different own-piece square: re-select with the live-flip-and-snapshot
conjunction. -/
lemma event_reselect_branch (s : Chess) (selPos : Int) (fl : Bool) (raw : Int)
    (hs : s.selected = some (selPos, fl))
    (hne : decode s raw ≠ selPos)
    (hown : own_test s.board (decode s raw) = true) :
    event s (.TileClicked raw) =
      { s with selected := some (decode s raw, s.should_flip && fl) } := by
  unfold event
  rw [hs]
  simp [hne, hown]

/-- Shape of the click handler when no selection is active. -/
lemma event_none_branch (s : Chess) (raw : Int) (hs : s.selected = none) :
    event s (.TileClicked raw) =
      (if own_test s.board (decode s raw) then
        { s with selected := some (decode s raw,
            s.should_flip && decide (s.board.side_to_move = Color.black)) }
      else s) := by
  unfold event
  rw [hs]

/-- Every state produced by `update_board` satisfies the check-indicator
invariant. -/
lemma checkP_update (t : Chess) : checkP (update_board t) := by
  unfold checkP update_board
  by_cases hc : t.board.checkers = []
  · have hnc : sideInCheck t.board = false := by
      rcases Bool.eq_false_or_eq_true (sideInCheck t.board) with h | h
      · exact absurd ((checkers_ne_nil_iff t.board).mpr h) (by simp [hc])
      · exact h
    simp [hc, hnc]
  · have hic : sideInCheck t.board = true := (checkers_ne_nil_iff t.board).mp hc
    simp only [hc, if_pos, hic]
    constructor
    · simp [hc]
    · intro k f h
      simp [hc] at h
      exact h.1.symm

/-- C1: with an active selection at `selPos`, a click decoding to a
position that is neither `selPos` nor an own-piece square, whose move from
`selPos` (no promotion) is legal, makes the handler replace the board with
the move's result, recompute the derived view state (sprite array and
check indicator, via `update_board`), and clear the selection. -/
theorem claim_c1 (s : Chess) (selPos : Int) (fl : Bool) (raw : Int)
    (g0 : 0 ≤ selPos) (g1 : selPos < 64) (g2 : 0 ≤ raw) (g3 : raw < 64)
    (hs : s.selected = some (selPos, fl))
    (hne : decode s raw ≠ selPos)
    (hown : own_test s.board (decode s raw) = false)
    (hleg : s.board.legal ⟨selPos.toNat, (decode s raw).toNat, none⟩ = true) :
    event s (.TileClicked raw) =
      { update_board { s with board := s.board.make_move_new ⟨selPos.toNat, (decode s raw).toNat, none⟩ } with selected := none } := by
  obtain ⟨d0, d1⟩ := decode_bounds s raw g2 g3
  rw [event_move_branch s selPos fl raw hs hne hown,
    clickMove_eq selPos (decode s raw) g0 g1 d0 d1, if_pos hleg]

/-- C1 witness: from the standard initial position, `TileClicked 12` then
`TileClicked 28` yields the board of that single pawn advance with the
selection cleared. -/
theorem claim_c1_witness :
    (event (event Chess.new (.TileClicked 12)) (.TileClicked 28)).board
        = Board.default.make_move_new ⟨12, 28, none⟩ ∧
    (event (event Chess.new (.TileClicked 12)) (.TileClicked 28)).selected = none := by
  have h := claim_c1 (event Chess.new (.TileClicked 12)) 12 false 28
    (by decide) (by decide) (by decide) (by decide)
    (by decide) (by decide) (by decide) (by decide)
  rw [h]
  exact ⟨by decide, rfl⟩

/-- C2: with an active selection, a click whose move-legality check fails
changes no component of the state at all. -/
theorem claim_c2 (s : Chess) (selPos : Int) (fl : Bool) (raw : Int)
    (g0 : 0 ≤ selPos) (g1 : selPos < 64) (g2 : 0 ≤ raw) (g3 : raw < 64)
    (hs : s.selected = some (selPos, fl))
    (hne : decode s raw ≠ selPos)
    (hown : own_test s.board (decode s raw) = false)
    (hleg : s.board.legal ⟨selPos.toNat, (decode s raw).toNat, none⟩ = false) :
    event s (.TileClicked raw) = s := by
  obtain ⟨d0, d1⟩ := decode_bounds s raw g2 g3
  rw [event_move_branch s selPos fl raw hs hne hown,
    clickMove_eq selPos (decode s raw) g0 g1 d0 d1]
  simp [hleg]

/-- C2 witness: with the e2 pawn selected, clicking e5 (an illegal pawn
move) leaves the whole state unchanged. -/
theorem claim_c2_witness :
    event (event Chess.new (.TileClicked 12)) (.TileClicked 36)
      = event Chess.new (.TileClicked 12) :=
  claim_c2 (event Chess.new (.TileClicked 12)) 12 false 36
    (by decide) (by decide) (by decide) (by decide)
    (by decide) (by decide) (by decide) (by decide)

/-- C3: after a board-replacing operation (legal-move click or reset) the
check indicator is present exactly when the side to move on the new board
is in check, and then carries that side's king square; it is recomputed
from the current board, never stale. -/
theorem claim_c3 (s : Chess) (selPos : Int) (fl : Bool) (raw : Int)
    (g0 : 0 ≤ selPos) (g1 : selPos < 64) (g2 : 0 ≤ raw) (g3 : raw < 64)
    (hs : s.selected = some (selPos, fl))
    (hne : decode s raw ≠ selPos)
    (hown : own_test s.board (decode s raw) = false)
    (hleg : s.board.legal ⟨selPos.toNat, (decode s raw).toNat, none⟩ = true) :
    checkP (event s (.TileClicked raw)) ∧ ∀ t : Chess, checkP (event t .Reset) := by
  obtain ⟨d0, d1⟩ := decode_bounds s raw g2 g3
  constructor
  · rw [event_move_branch s selPos fl raw hs hne hown,
      clickMove_eq selPos (decode s raw) g0 g1 d0 d1, if_pos hleg]
    exact checkP_update _
  · intro t
    exact checkP_update _

/-- A sparse board: white rook a1, white king e1, black king e8, White to
move (used to exercise a move that gives check). -/
def rookBoard : Board where
  pieces := (List.range 64).map (fun s =>
    if s = 0 then some ⟨.white, .rook⟩
    else if s = 4 then some ⟨.white, .king⟩
    else if s = 60 then some ⟨.black, .king⟩ else none)
  side_to_move := .white
  castleWK := false
  castleWQ := false
  castleBK := false
  castleBQ := false
  epSquare := none

/-- State on `rookBoard` with the rook selected and flipping off. -/
def rookState : Chess where
  board := rookBoard
  images := get_paths_from_pos rookBoard
  selected := some (0, false)
  on_check := none
  should_flip := false

/-- C3 witness: playing Ra1-a8 (check) sets the indicator to Black's king
square with the orientation snapshot, satisfying the invariant. -/
theorem claim_c3_witness :
    (event rookState (.TileClicked 56)).on_check = some (60, false) ∧
    checkP (event rookState (.TileClicked 56)) := by
  have h := claim_c3 rookState 0 false 56
    (by decide) (by decide) (by decide) (by decide)
    rfl (by decide) (by decide) (by decide)
  exact ⟨by decide, h.1⟩

/-- C5: with no active selection, a click creates a selection with snapshot
`shouldFlip && (side to move is Black)` exactly when the decoded square
holds a piece of the side to move; otherwise nothing changes. -/
theorem claim_c5 (s : Chess) (raw : Int) (g2 : 0 ≤ raw) (g3 : raw < 64)
    (hs : s.selected = none) :
    ((∃ q, s.board.piece_on (decode s raw).toNat = some q ∧ q.color = s.board.side_to_move) →
      event s (.TileClicked raw) =
        { s with selected := some (decode s raw,
            s.should_flip && decide (s.board.side_to_move = Color.black)) })
    ∧ ((¬ ∃ q, s.board.piece_on (decode s raw).toNat = some q ∧ q.color = s.board.side_to_move) →
      event s (.TileClicked raw) = s) := by
  obtain ⟨d0, d1⟩ := decode_bounds s raw g2 g3
  rw [event_none_branch s raw hs]
  constructor
  · intro hocc
    rw [if_pos ((own_test_iff s.board (decode s raw) d0 d1).mpr hocc)]
  · intro hocc
    rw [if_neg (fun h => hocc ((own_test_iff s.board (decode s raw) d0 d1).mp h))]

/-- C5 witness: clicking the e2 pawn creates the selection; clicking the
empty e4 square changes nothing. -/
theorem claim_c5_witness :
    event Chess.new (.TileClicked 12) = { Chess.new with selected := some (12, false) } ∧
    event Chess.new (.TileClicked 28) = Chess.new := by
  constructor
  · have h := (claim_c5 Chess.new 12 (by decide) (by decide) rfl).1
      ⟨⟨Color.white, PieceKind.pawn⟩, by decide, rfl⟩
    rw [h]
    decide
  · refine (claim_c5 Chess.new 28 (by decide) (by decide) rfl).2 ?_
    rintro ⟨q, hq, hc⟩
    have hnone : Chess.new.board.piece_on (decode Chess.new 28).toNat = none := by decide
    rw [hnone] at hq
    exact Option.noConfusion hq

/-- The initial position with Black to move (a legitimate engine board
value, used to exercise flip-sensitive behavior). -/
def blackStart : Board :=
  { Board.default with side_to_move := Color.black }

/-- State with Black to move, flipping disabled, and a selection whose flip
snapshot is `true` (created while flipping was on). -/
def reselectState : Chess where
  board := blackStart
  images := get_paths_from_pos blackStart
  selected := some (52, true)
  on_check := none
  should_flip := false

/-- C6 counterexample: re-selecting another own piece stores
`should_flip && selFlip` — here `false` — not the original snapshot
`true` the claim asserts. -/
theorem claim_c6_counterexample :
    (event reselectState (.TileClicked 48)).selected = some (48, false) ∧
    (event reselectState (.TileClicked 48)).selected ≠ some (48, true) ∧
    (event reselectState (.TileClicked 48)).board = reselectState.board := by
  decide

/-- C6 (amended): with an active selection `(selPos, selFlip)`, clicking a
different own-piece square replaces the selection by
`(logicalPos, shouldFlip && selFlip)` and attempts no move (the whole rest
of the state, board included, is unchanged). -/
theorem claim_c6 (s : Chess) (selPos : Int) (fl : Bool) (raw : Int)
    (g2 : 0 ≤ raw) (g3 : raw < 64)
    (hs : s.selected = some (selPos, fl))
    (hne : decode s raw ≠ selPos)
    (hocc : ∃ q, s.board.piece_on (decode s raw).toNat = some q ∧ q.color = s.board.side_to_move) :
    event s (.TileClicked raw) =
      { s with selected := some (decode s raw, s.should_flip && fl) } := by
  obtain ⟨d0, d1⟩ := decode_bounds s raw g2 g3
  exact event_reselect_branch s selPos fl raw hs hne
    ((own_test_iff s.board (decode s raw) d0 d1).mpr hocc)

/-- C6 witness: with the e2 pawn selected, clicking the f2 pawn re-selects
it (snapshot `true && false = false`) and applies no move. -/
theorem claim_c6_witness :
    (event (event Chess.new (.TileClicked 12)) (.TileClicked 13)).selected = some (13, false) ∧
    (event (event Chess.new (.TileClicked 12)) (.TileClicked 13)).board = Board.default := by
  have h := claim_c6 (event Chess.new (.TileClicked 12)) 12 false 13
    (by decide) (by decide) (by decide) (by decide)
    ⟨⟨Color.white, PieceKind.pawn⟩, by decide, rfl⟩
  rw [h]
  exact ⟨by decide, by decide⟩

/-- C7: toggling inverts `should_flip` and recomputes the derived view
state without touching board or selection; from any view-consistent state,
toggling twice restores the state exactly (in particular `should_flip`,
the images array and the check indicator). -/
theorem claim_c7 (s : Chess) :
    (event s .ToggleFlipping).board = s.board ∧
    (event s .ToggleFlipping).selected = s.selected ∧
    (event s .ToggleFlipping).should_flip = !s.should_flip ∧
    (event s .ToggleFlipping) = update_board { s with should_flip := !s.should_flip } ∧
    (update_board s = s → event (event s .ToggleFlipping) .ToggleFlipping = s) := by
  obtain ⟨b, im, sel, oc, fl⟩ := s
  refine ⟨rfl, rfl, rfl, rfl, ?_⟩
  intro hcons
  conv_rhs => rw [← hcons]
  simp [event, update_board, Bool.not_not]

/-- C7 witness: double toggle from the (view-consistent) initial state is
the identity. -/
theorem claim_c7_witness :
    event (event Chess.new .ToggleFlipping) .ToggleFlipping = Chess.new :=
  (claim_c7 Chess.new).2.2.2.2 (by decide)

/-- C9: the freshly constructed state has the standard initial board, no
selection, no check indicator, the projected images of the initial board,
and flipping enabled by default — so clicks decode through `63 - raw` as
soon as the second player is to move. -/
theorem claim_c9 :
    Chess.new.board = Board.default ∧
    Chess.new.selected = none ∧
    Chess.new.on_check = none ∧
    Chess.new.images = get_paths_from_pos Board.default ∧
    Chess.new.should_flip = true ∧
    ∀ (b : Board) (raw : Int), b.side_to_move = Color.black →
      decode { Chess.new with board := b } raw = 63 - raw := by
  refine ⟨rfl, rfl, rfl, rfl, rfl, ?_⟩
  intro b raw hb
  unfold decode
  simp [hb, Chess.new]

/-- C9 witness: with Black to move on the initial-layout board and the
default flip setting, a raw click decodes to its mirror. -/
theorem claim_c9_witness :
    decode { Chess.new with board := blackStart } 5 = 63 - 5 :=
  claim_c9.2.2.2.2.2 blackStart 5 rfl

/-- C10: the click handler consults only board contents, side to move,
selection and flip flag — for any state whatsoever (no game-status
hypothesis), a click passing the own-piece test creates a selection. -/
theorem claim_c10 (s : Chess) (raw : Int)
    (hs : s.selected = none)
    (hown : own_test s.board (decode s raw) = true) :
    event s (.TileClicked raw) =
      { s with selected := some (decode s raw,
          s.should_flip && decide (s.board.side_to_move = Color.black)) } := by
  rw [event_none_branch s raw hs, if_pos hown]

/-- The fool's mate position (1.f3 e5 2.g4 Qh4#): White to move and
checkmated. -/
def foolsMate : Board where
  pieces :=
    backRank .white
    ++ [some ⟨.white, .pawn⟩, some ⟨.white, .pawn⟩, some ⟨.white, .pawn⟩,
        some ⟨.white, .pawn⟩, some ⟨.white, .pawn⟩, none, none, some ⟨.white, .pawn⟩]
    ++ [none, none, none, none, none, some ⟨.white, .pawn⟩, none, none]
    ++ [none, none, none, none, none, none, some ⟨.white, .pawn⟩, some ⟨.black, .queen⟩]
    ++ [none, none, none, none, some ⟨.black, .pawn⟩, none, none, none]
    ++ emptyRank
    ++ [some ⟨.black, .pawn⟩, some ⟨.black, .pawn⟩, some ⟨.black, .pawn⟩,
        some ⟨.black, .pawn⟩, none, some ⟨.black, .pawn⟩, some ⟨.black, .pawn⟩,
        some ⟨.black, .pawn⟩]
    ++ [some ⟨.black, .rook⟩, some ⟨.black, .knight⟩, some ⟨.black, .bishop⟩, none,
        some ⟨.black, .king⟩, some ⟨.black, .bishop⟩, some ⟨.black, .knight⟩,
        some ⟨.black, .rook⟩]
  side_to_move := .white
  castleWK := true
  castleWQ := true
  castleBK := true
  castleBQ := true
  epSquare := none

/-- State sitting on the checkmate position with nothing selected. -/
def mateState : Chess where
  board := foolsMate
  images := get_paths_from_pos foolsMate
  selected := none
  on_check := some (4, false)
  should_flip := false

set_option maxRecDepth 10000 in
set_option maxHeartbeats 4000000 in
/-- C10 witness: the position is checkmate, yet clicking the own king's
square still creates a selection — no input gating on game end. -/
theorem claim_c10_witness :
    foolsMate.status = BoardStatus.checkmate ∧
    (event mateState (.TileClicked 4)).selected = some (4, false) := by
  constructor
  · decide
  · rw [claim_c10 mateState 4 rfl (by decide)]
    decide

/-- C4: evaluation of the handler at the out-of-range payload 64 from the
fresh state.  The source validates nothing: `unsafe Square::new(64)` is
constructed, the overflowing `1u64 << 64` is masked (release semantics),
the click is treated as square a1 (an own rook) and the out-of-range value
64 is stored in the selection — the handler completes normally instead of
failing loudly at the decoding boundary. -/
theorem claim_c4_eval :
    event Chess.new (.TileClicked 64) = { Chess.new with selected := some (64, false) } ∧
    Square.new (u8cast 64) = 64 := by
  constructor
  · decide
  · rfl

/-- Sprite key of one cell: empty string for an empty square, the piece's
FEN character otherwise. -/
def cellStr : Option CPiece → String
  | none => ""
  | some p => String.singleton (pieceChar p)

lemma singleton_ne_empty (c : Char) : String.singleton c ≠ "" := by
  intro h
  have h2 := congrArg String.data h
  simp [String.singleton, String.push] at h2

lemma singleton_bne_empty (c : Char) : (String.singleton c != "") = true := by
  simp [bne_iff_ne, singleton_ne_empty]

lemma expand_digit : ∀ k, k < 9 → 1 ≤ k → expandChar (digitChar k) = List.replicate k "" := by
  decide

lemma expand_piece (p : CPiece) :
    expandChar (pieceChar p) = [String.singleton (pieceChar p)] := by
  obtain ⟨c, k⟩ := p
  cases c <;> cases k <;> decide

lemma digitChar_ne_slash : ∀ k, k < 9 → digitChar k ≠ '/' := by decide

lemma pieceChar_ne_slash (p : CPiece) : pieceChar p ≠ '/' := by
  obtain ⟨c, k⟩ := p
  cases c <;> cases k <;> decide

lemma encode_no_slash (cells : List (Option CPiece)) :
    ∀ n, n + cells.length ≤ 8 → ∀ c ∈ encodeCells cells n, c ≠ '/' := by
  induction cells with
  | nil =>
      intro n h c hc
      match n, hc with
      | m + 1, hc =>
          rw [encodeCells] at hc
          simp only [List.mem_singleton] at hc
          subst hc
          exact digitChar_ne_slash (m + 1) (by simp at h; omega)
  | cons hd tl ih =>
      intro n h c hc
      match hd, n, hc with
      | none, n, hc =>
          rw [encodeCells] at hc
          exact ih (n + 1) (by simp at h ⊢; omega) c hc
      | some p, 0, hc =>
          rw [encodeCells] at hc
          rcases List.mem_cons.mp hc with h1 | h2
          · subst h1; exact pieceChar_ne_slash p
          · exact ih 0 (by simp at h ⊢; omega) c h2
      | some p, m + 1, hc =>
          rw [encodeCells] at hc
          rcases List.mem_cons.mp hc with h1 | h2
          · subst h1; exact digitChar_ne_slash (m + 1) (by simp at h; omega)
          · rcases List.mem_cons.mp h2 with h3 | h4
            · subst h3; exact pieceChar_ne_slash p
            · exact ih 0 (by simp at h ⊢; omega) c h4

/-- Expanding the run-length encoding of a rank prefix recovers the carried
empties followed by the per-cell sprite keys. -/
lemma expand_encode (cells : List (Option CPiece)) :
    ∀ n, n + cells.length ≤ 8 →
      (encodeCells cells n).flatMap expandChar
        = List.replicate n "" ++ cells.map cellStr := by
  induction cells with
  | nil =>
      intro n h
      match n with
      | 0 => rfl
      | m + 1 =>
          rw [encodeCells]
          simp only [List.flatMap_cons, List.flatMap_nil, List.append_nil, List.map_nil]
          rw [expand_digit (m + 1) (by simp at h; omega) (by omega)]
  | cons hd tl ih =>
      intro n h
      match hd, n with
      | none, n =>
          rw [encodeCells, ih (n + 1) (by simp at h ⊢; omega)]
          rw [List.replicate_succ' n ""]
          simp [cellStr]
      | some p, 0 =>
          rw [encodeCells]
          simp only [List.flatMap_cons]
          rw [expand_piece p, ih 0 (by simp at h ⊢; omega)]
          simp [cellStr]
      | some p, m + 1 =>
          rw [encodeCells]
          simp only [List.flatMap_cons]
          rw [expand_digit (m + 1) (by simp at h; omega) (by omega),
            expand_piece p, ih 0 (by simp at h ⊢; omega)]
          simp [cellStr]

lemma filter_joinSlash (l : List (List Char))
    (h : ∀ x ∈ l, ∀ c ∈ x, c ≠ '/') :
    (joinSlash l).filter (fun c => c != '/') = l.flatten := by
  induction l with
  | nil => rfl
  | cons x tl ih =>
      have hx : x.filter (fun c => c != '/') = x :=
        List.filter_eq_self.mpr (fun c hc => by
          simpa [bne_iff_ne] using h x (List.mem_cons_self x tl) c hc)
      match tl with
      | [] =>
          rw [joinSlash]
          simp [hx]
      | y :: tl2 =>
          have ih2 := ih (fun z hz c hc => h z (List.mem_cons_of_mem x hz) c hc)
          rw [joinSlash, List.filter_append]
          simp [hx, ih2]

lemma flatMap_flatten (l : List (List Char)) (f : Char → List String) :
    l.flatten.flatMap f = (l.map (fun x => x.flatMap f)).flatten := by
  induction l with
  | nil => rfl
  | cons x tl ih => simp [List.flatMap_append, ih]

lemma length_rankCells (b : Board) (r : Nat) : (rankCells b r).length = 8 := by
  simp [rankCells]

/-- The projected sprite keys are exactly the per-cell keys of the eight
ranks, top rank first. -/
lemma get_paths_eq (b : Board) :
    get_paths_from_pos b
      = ((List.range 8).reverse.map (fun r => (rankCells b r).map cellStr)).flatten := by
  unfold get_paths_from_pos fenPlacement
  have hno : ∀ x ∈ fenRanks b, ∀ c ∈ x, c ≠ '/' := by
    intro x hx c hc
    unfold fenRanks at hx
    rcases List.mem_map.mp hx with ⟨r, _, hr⟩
    subst hr
    exact encode_no_slash (rankCells b r) 0 (by rw [length_rankCells]) c hc
  rw [filter_joinSlash (fenRanks b) hno, flatMap_flatten]
  unfold fenRanks
  rw [List.map_map]
  apply congrArg
  apply List.map_congr_left
  intro r _
  show (encodeCells (rankCells b r) 0).flatMap expandChar = (rankCells b r).map cellStr
  rw [expand_encode (rankCells b r) 0 (by rw [length_rankCells])]
  rfl

lemma filter_map_length {α β : Type} (l : List α) (g : α → β) (p : β → Bool) :
    ((l.map g).filter p).length = (l.filter (fun x => p (g x))).length := by
  induction l with
  | nil => rfl
  | cons hd tl ih =>
      cases hp : p (g hd) <;> simp [List.filter_cons, hp, ih]

lemma filter_flatten_length {α : Type} (L : List (List α)) (p : α → Bool) :
    (L.flatten.filter p).length = (L.map (fun x => (x.filter p).length)).sum := by
  induction L with
  | nil => rfl
  | cons x tl ih =>
      simp only [List.flatten_cons, List.filter_append, List.length_append, ih,
        List.map_cons, List.sum_cons]

lemma cell_filter_length (cells : List (Option CPiece)) :
    ((cells.map cellStr).filter (fun s => s != "")).length
      = (cells.filter (fun o => o.isSome)).length := by
  induction cells with
  | nil => rfl
  | cons hd tl ih =>
      cases hd with
      | none => simpa [cellStr] using ih
      | some p => simpa [cellStr, singleton_bne_empty] using ih

lemma countP_range_mul (p : Nat → Bool) :
    ∀ k, ((List.range (8 * k)).filter p).length
      = ((List.range k).map
          (fun r => ((List.range 8).filter (fun f => p (8 * r + f))).length)).sum := by
  intro k
  induction k with
  | zero => rfl
  | succ k ih =>
      have h8 : 8 * (k + 1) = 8 * k + 8 := by ring
      rw [h8, List.range_add, List.filter_append, List.length_append, ih,
        filter_map_length (List.range 8) (8 * k + ·) p]
      have hsucc : List.range (k + 1) = List.range k ++ [k] := List.range_succ k
      rw [hsucc, List.map_append, List.sum_append]
      simp

/-- Total piece count as the sum of per-rank piece counts. -/
lemma pieceCount_ranks (b : Board) :
    pieceCount b
      = ((List.range 8).map
          (fun r => ((rankCells b r).filter (fun o => o.isSome)).length)).sum := by
  unfold pieceCount
  rw [show (64 : Nat) = 8 * 8 by norm_num,
    countP_range_mul (fun s => (b.piece_on s).isSome) 8]
  apply congrArg
  apply List.map_congr_left
  intro r _
  rw [show rankCells b r = (List.range 8).map (fun f => b.piece_on (8 * r + f)) from rfl,
    filter_map_length]

/-- C8: for every board, the sprite projection has exactly 64 entries (the
source's `try_into` panic branch is unreachable) and the number of
non-empty sprite keys equals the number of pieces on the board. -/
theorem claim_c8 (b : Board) :
    (get_paths_from_pos b).length = 64 ∧
    ((get_paths_from_pos b).filter (fun s => s != "")).length = pieceCount b := by
  constructor
  · rw [get_paths_eq, List.length_flatten, List.map_map]
    have hlen : ∀ r ∈ (List.range 8).reverse,
        (List.length ∘ fun r => (rankCells b r).map cellStr) r = 8 := by
      intro r _
      simp [length_rankCells]
    rw [List.map_congr_left hlen]
    decide
  · rw [get_paths_eq, filter_flatten_length, List.map_map, pieceCount_ranks]
    have hcell : ∀ r ∈ (List.range 8).reverse,
        ((fun x => (List.filter (fun s => s != "") x).length)
            ∘ fun r => (rankCells b r).map cellStr) r
          = ((rankCells b r).filter (fun o => o.isSome)).length := by
      intro r _
      exact cell_filter_length (rankCells b r)
    rw [List.map_congr_left hcell, List.map_reverse, List.sum_reverse]
